import Mathlib

/-!
# Verification of the dv-inventory-backend-api draft/commit core

Shallow embedding of `src/index.js`: the draft store (`inventory_counts`),
the stock ledger (`stock_levels`) and the four route handlers that form the
reconciliation core — `POST /inventory/scan`, `GET /inventory/review`,
`POST /inventory/update` and `POST /inventory/commit`.

SQL tables are modelled as Lean lists of rows; the Postgres transaction
wrapping the commit handler is modelled by running every statement of the
transaction against a transaction-local copy of the database which is
published only when the transaction commits; a statement failure (modelled
by a fault index) discards the transaction-local state, which is exactly
the effect of the handler's `ROLLBACK` in its catch block.
-/

namespace Inventory

/-- The `status` column of `inventory_counts` (`'DRAFT'` / `'COMMITTED'`). -/
inductive Status where
  | DRAFT
  | COMMITTED
deriving DecidableEq, Repr

/-- Errors surfaced by the handlers: 404 product/draft lookups and 500
storage/commit failures. -/
inductive ApiErr where
  | NotFound
  | StorageFailure
deriving DecidableEq, Repr

/-- A row of the `products` table (the columns the core reads). -/
structure Product where
  product_id : Nat
  name : String
  sku : String
deriving DecidableEq, Repr

/-- A row of the `inventory_counts` table. -/
structure DraftRow where
  id : Nat
  product_id : Nat
  location : String
  quantity : Int
  user_id : Nat
  scanned_at : Nat
  status : Status
deriving DecidableEq, Repr

/-- A row of the `stock_levels` table (the columns the core writes). -/
structure StockRow where
  product_id : Nat
  location : String
  on_hand : Int
  available : Int
deriving DecidableEq, Repr

/-- A row of the `/inventory/review` response:
`SELECT ic.id, ic.quantity, p.name, p.sku`. -/
structure ReviewRow where
  id : Nat
  quantity : Int
  name : String
  sku : String
deriving DecidableEq, Repr

/-- The database state visible to the core.  `nextId` models the serial
primary key of `inventory_counts`; `now` models the clock used for the
`scanned_at` default. -/
structure DB where
  products : List Product
  locations : List String
  inventory_counts : List DraftRow
  stock_levels : List StockRow
  nextId : Nat
  now : Nat
deriving DecidableEq, Repr

/-- `SELECT ... FROM inventory_counts WHERE location = $1 AND status = 'DRAFT'`. -/
def draftsFor (db : DB) (loc : String) : List DraftRow :=
  db.inventory_counts.filter fun r => decide (r.location = loc ∧ r.status = Status.DRAFT)

/-- `SELECT id FROM inventory_counts WHERE product_id = $1 AND
location = $2 AND status = 'DRAFT'`: the `DRAFT` rows for one
(product_id, location) pair. -/
def pairDrafts (db : DB) (pid : Nat) (loc : String) : List DraftRow :=
  db.inventory_counts.filter fun r =>
    decide (r.product_id = pid ∧ r.location = loc ∧ r.status = Status.DRAFT)

/-- The row inserted by a first scan: quantity 1, status `'DRAFT'`, serial
id, `scanned_at` defaulted to the current time. -/
def newDraft (db : DB) (pid : Nat) (loc : String) (uid : Nat) : DraftRow :=
  { id := db.nextId, product_id := pid, location := loc, quantity := 1,
    user_id := uid, scanned_at := db.now, status := Status.DRAFT }

/-- `POST /inventory/scan`: resolve the barcode against `products`
(404 if absent), then check for an existing `DRAFT` row for the
(product, location) pair; increment its quantity by 1 if present,
otherwise insert a fresh row with quantity 1 and status `'DRAFT'`. -/
def recordScan (db : DB) (barcode loc : String) (uid : Nat) :
    Except ApiErr Product × DB :=
  match db.products.find? (fun p => decide (p.sku = barcode)) with
  | none => (Except.error ApiErr.NotFound, db)
  | some p =>
    match pairDrafts db p.product_id loc with
    | [] =>
      (Except.ok p,
        { db with
            inventory_counts := db.inventory_counts ++ [newDraft db p.product_id loc uid],
            nextId := db.nextId + 1,
            now := db.now + 1 })
    | r0 :: _ =>
      (Except.ok p,
        { db with inventory_counts := db.inventory_counts.map fun r =>
            if r.id = r0.id then { r with quantity := r.quantity + 1 } else r })

/-- Insert a `DraftRow` into a list sorted by `scanned_at` descending. -/
def insertDesc (r : DraftRow) : List DraftRow → List DraftRow
  | [] => [r]
  | x :: xs =>
    if r.scanned_at ≤ x.scanned_at then x :: insertDesc r xs else r :: x :: xs

/-- `ORDER BY ic.scanned_at DESC`. -/
def sortDesc : List DraftRow → List DraftRow
  | [] => []
  | x :: xs => insertDesc x (sortDesc xs)

/-- `GET /inventory/review`: the `DRAFT` rows of a location joined with
`products`, most recently scanned first. -/
def listDrafts (db : DB) (loc : String) : List ReviewRow :=
  (sortDesc (draftsFor db loc)).filterMap fun r =>
    (db.products.find? (fun p => decide (p.product_id = r.product_id))).map
      fun p => { id := r.id, quantity := r.quantity, name := p.name, sku := p.sku }

/-- `POST /inventory/update`: `DELETE` the row when `quantity <= 0`,
otherwise `UPDATE ... SET quantity = $1 WHERE id = $2`.  The handler
answers `{ success: true }` unconditionally — it never checks whether a
row with this id exists. -/
def setQuantity (db : DB) (rid : Nat) (q : Int) : Except ApiErr Unit × DB :=
  if q ≤ 0 then
    (Except.ok (),
      { db with inventory_counts := db.inventory_counts.filter fun r =>
          decide (¬ r.id = rid) })
  else
    (Except.ok (),
      { db with inventory_counts := db.inventory_counts.map fun r =>
          if r.id = rid then { r with quantity := q } else r })

/-- The `stock_levels` rows for one (product_id, location) pair. -/
def stockRowsFor (db : DB) (pid : Nat) (loc : String) : List StockRow :=
  db.stock_levels.filter fun s => decide (s.product_id = pid ∧ s.location = loc)

/-- `UPDATE stock_levels SET on_hand = $1, available = $1 WHERE
product_id = $2 AND location = $3`; returns the new state and the
`rowCount` of the update. -/
def stockUpdate (db : DB) (pid : Nat) (loc : String) (q : Int) : DB × Nat :=
  (({ db with stock_levels := db.stock_levels.map fun s =>
      if s.product_id = pid ∧ s.location = loc then
        { s with on_hand := q, available := q } else s }),
   (stockRowsFor db pid loc).length)

/-- `INSERT INTO stock_levels (product_id, location, on_hand, available)
VALUES ($1, $2, $3, $3)`. -/
def stockInsert (db : DB) (pid : Nat) (loc : String) (q : Int) : DB :=
  { db with stock_levels := db.stock_levels ++
      [{ product_id := pid, location := loc, on_hand := q, available := q }] }

/-- One iteration of the commit handler's loop: update, and insert when
the update matched no row (`updateRes.rowCount === 0`). -/
def upsertStock (db : DB) (pid : Nat) (loc : String) (q : Int) : DB :=
  if (stockUpdate db pid loc q).2 = 0 then
    stockInsert (stockUpdate db pid loc q).1 pid loc q
  else (stockUpdate db pid loc q).1

/-- `DELETE FROM inventory_counts WHERE location = $1 AND status = 'DRAFT'`. -/
def deleteDrafts (db : DB) (loc : String) : DB :=
  { db with inventory_counts := db.inventory_counts.filter fun r =>
      decide (¬ (r.location = loc ∧ r.status = Status.DRAFT)) }

/-- The commit handler's upsert loop run inside the transaction, with
fault injection: `failAt = some k` makes the k-th SQL statement of the
transaction raise.  `c` is the index of the next statement; the `UPDATE`
is one statement and the conditional `INSERT` a second one. -/
def upsertLoop (failAt : Option Nat) (loc : String) :
    List DraftRow → DB → Nat → Except Unit (DB × Nat)
  | [], db, c => Except.ok (db, c)
  | item :: rest, db, c =>
    if failAt = some c then Except.error () else
    if (stockUpdate db item.product_id loc item.quantity).2 = 0 then
      if failAt = some (c + 1) then Except.error () else
      upsertLoop failAt loc rest
        (stockInsert (stockUpdate db item.product_id loc item.quantity).1
          item.product_id loc item.quantity) (c + 2)
    else
      upsertLoop failAt loc rest (stockUpdate db item.product_id loc item.quantity).1 (c + 1)

/-- The body of the commit transaction: read the location's `DRAFT` rows
(statement 0), upsert each into `stock_levels`, delete the drafts, then
the SQL `COMMIT` itself (each a statement that the injected fault can
hit).  Returns the transaction-local final state and the row count. -/
def commitTx (db : DB) (loc : String) (failAt : Option Nat) :
    Except Unit (DB × Nat) :=
  if failAt = some 0 then Except.error () else
  match upsertLoop failAt loc (draftsFor db loc) db 1 with
  | Except.error e => Except.error e
  | Except.ok r =>
    if failAt = some r.2 then Except.error () else
    if failAt = some (r.2 + 1) then Except.error () else
    Except.ok (deleteDrafts r.1 loc, (draftsFor db loc).length)

/-- `POST /inventory/commit`: run the transaction; on success publish its
state and answer the draft count, on any statement failure `ROLLBACK`
(discard the transaction-local state, leaving the database as it was) and
answer a 500. -/
def commit (db : DB) (loc : String) (failAt : Option Nat) :
    Except ApiErr Nat × DB :=
  match commitTx db loc failAt with
  | Except.error _ => (Except.error ApiErr.StorageFailure, db)
  | Except.ok r => (Except.ok r.2, r.1)

/-- The fault-free effect of the commit handler's loop on the database:
one `upsertStock` per draft row, in order. -/
def applyUpserts (loc : String) (items : List DraftRow) (db : DB) : DB :=
  items.foldl (fun d it => upsertStock d it.product_id loc it.quantity) db

/-- `n` sequential scans of the same barcode at the same location. -/
def scanN (db : DB) (barcode loc : String) (uid : Nat) : Nat → DB
  | 0 => db
  | n + 1 => (recordScan (scanN db barcode loc uid n) barcode loc uid).2

/-- States reachable from an empty draft store and empty stock ledger by
any sequence of scan, update and commit operations (commits with any
fault schedule). -/
inductive Reachable : DB → Prop where
  | init (ps : List Product) (ls : List String) (k t : Nat) :
      Reachable { products := ps, locations := ls, inventory_counts := [],
                  stock_levels := [], nextId := k, now := t }
  | scan (db : DB) (barcode loc : String) (uid : Nat) :
      Reachable db → Reachable (recordScan db barcode loc uid).2
  | update (db : DB) (rid : Nat) (q : Int) :
      Reachable db → Reachable (setQuantity db rid q).2
  | commitStep (db : DB) (loc : String) (failAt : Option Nat) :
      Reachable db → Reachable (commit db loc failAt).2

/-- Spec §3 invariant: at most one `DRAFT` row per (product_id, location). -/
def DraftPairAtMostOne (db : DB) : Prop :=
  ∀ pid loc, (pairDrafts db pid loc).length ≤ 1

/-- Spec §3 invariant: at most one `stock_levels` row per
(product_id, location). -/
def StockPairAtMostOne (db : DB) : Prop :=
  ∀ pid loc, (stockRowsFor db pid loc).length ≤ 1

/-- Every stock ledger row has `on_hand = available`. -/
def StockBalanced (db : DB) : Prop :=
  ∀ s ∈ db.stock_levels, s.on_hand = s.available

/-! ## Basic lemmas about the operations -/

theorem filter_map_invar {α : Type} (p : α → Bool) (f : α → α) (l : List α)
    (h : ∀ a, p (f a) = p a) :
    (l.map f).filter p = (l.filter p).map f := by
  rw [List.filter_map]
  congr 1
  exact List.filter_congr fun a _ => h a

theorem recordScan_snd_none (db : DB) (bc loc : String) (uid : Nat)
    (h : db.products.find? (fun p => decide (p.sku = bc)) = none) :
    (recordScan db bc loc uid).2 = db := by
  unfold recordScan
  rw [h]

theorem recordScan_snd_insert (db : DB) (bc loc : String) (uid : Nat) (p : Product)
    (hp : db.products.find? (fun p => decide (p.sku = bc)) = some p)
    (hd : pairDrafts db p.product_id loc = []) :
    (recordScan db bc loc uid).2 =
      { db with
          inventory_counts := db.inventory_counts ++ [newDraft db p.product_id loc uid],
          nextId := db.nextId + 1,
          now := db.now + 1 } := by
  unfold recordScan
  rw [hp]
  dsimp only
  rw [hd]

theorem recordScan_snd_inc (db : DB) (bc loc : String) (uid : Nat) (p : Product)
    (r0 : DraftRow) (rest : List DraftRow)
    (hp : db.products.find? (fun p => decide (p.sku = bc)) = some p)
    (hd : pairDrafts db p.product_id loc = r0 :: rest) :
    (recordScan db bc loc uid).2 =
      { db with inventory_counts := db.inventory_counts.map fun r =>
          if r.id = r0.id then { r with quantity := r.quantity + 1 } else r } := by
  unfold recordScan
  rw [hp]
  dsimp only
  rw [hd]

theorem recordScan_fields (db : DB) (bc loc : String) (uid : Nat) :
    (recordScan db bc loc uid).2.products = db.products ∧
    (recordScan db bc loc uid).2.locations = db.locations ∧
    (recordScan db bc loc uid).2.stock_levels = db.stock_levels := by
  rcases h : db.products.find? (fun p => decide (p.sku = bc)) with _ | p
  · rw [recordScan_snd_none db bc loc uid h]
    exact ⟨rfl, rfl, rfl⟩
  · rcases hd : pairDrafts db p.product_id loc with _ | ⟨r0, rest⟩
    · rw [recordScan_snd_insert db bc loc uid p h hd]
      exact ⟨rfl, rfl, rfl⟩
    · rw [recordScan_snd_inc db bc loc uid p r0 rest h hd]
      exact ⟨rfl, rfl, rfl⟩

theorem setQuantity_snd_del (db : DB) (rid : Nat) (q : Int) (h : q ≤ 0) :
    (setQuantity db rid q).2 =
      { db with inventory_counts := db.inventory_counts.filter fun r =>
          decide (¬ r.id = rid) } := by
  unfold setQuantity
  rw [if_pos h]

theorem setQuantity_snd_upd (db : DB) (rid : Nat) (q : Int) (h : ¬ q ≤ 0) :
    (setQuantity db rid q).2 =
      { db with inventory_counts := db.inventory_counts.map fun r =>
          if r.id = rid then { r with quantity := q } else r } := by
  unfold setQuantity
  rw [if_neg h]

theorem setQuantity_fst (db : DB) (rid : Nat) (q : Int) :
    (setQuantity db rid q).1 = Except.ok () := by
  unfold setQuantity
  by_cases h : q ≤ 0 <;> simp [h]

theorem upsertStock_fields (db : DB) (pid : Nat) (loc : String) (q : Int) :
    (upsertStock db pid loc q).inventory_counts = db.inventory_counts ∧
    (upsertStock db pid loc q).products = db.products ∧
    (upsertStock db pid loc q).locations = db.locations := by
  unfold upsertStock stockUpdate stockInsert
  by_cases h : (stockRowsFor db pid loc).length = 0 <;> simp [h]

theorem applyUpserts_nil (loc : String) (db : DB) : applyUpserts loc [] db = db := rfl

theorem applyUpserts_cons (loc : String) (a : DraftRow) (t : List DraftRow) (db : DB) :
    applyUpserts loc (a :: t) db =
      applyUpserts loc t (upsertStock db a.product_id loc a.quantity) := rfl

theorem applyUpserts_fields (loc : String) (items : List DraftRow) :
    ∀ db : DB, (applyUpserts loc items db).inventory_counts = db.inventory_counts ∧
      (applyUpserts loc items db).products = db.products ∧
      (applyUpserts loc items db).locations = db.locations := by
  induction items with
  | nil => intro db; exact ⟨rfl, rfl, rfl⟩
  | cons a t ih =>
    intro db
    rw [applyUpserts_cons]
    obtain ⟨h1, h2, h3⟩ := ih (upsertStock db a.product_id loc a.quantity)
    obtain ⟨g1, g2, g3⟩ := upsertStock_fields db a.product_id loc a.quantity
    exact ⟨h1.trans g1, h2.trans g2, h3.trans g3⟩

/-! ## The commit transaction -/

theorem upsertStock_of_found (db : DB) (pid : Nat) (loc : String) (q : Int)
    (h : ¬ (stockRowsFor db pid loc).length = 0) :
    upsertStock db pid loc q = (stockUpdate db pid loc q).1 := by
  unfold upsertStock
  rw [if_neg]
  exact h

theorem upsertStock_of_missing (db : DB) (pid : Nat) (loc : String) (q : Int)
    (h : (stockRowsFor db pid loc).length = 0) :
    upsertStock db pid loc q =
      stockInsert (stockUpdate db pid loc q).1 pid loc q := by
  unfold upsertStock
  rw [if_pos]
  exact h

theorem upsertLoop_ok_state (fa : Option Nat) (loc : String) :
    ∀ (items : List DraftRow) (db : DB) (c : Nat) (out : DB × Nat),
      upsertLoop fa loc items db c = Except.ok out →
      out.1 = applyUpserts loc items db := by
  intro items
  induction items with
  | nil =>
    intro db c out h
    simp only [upsertLoop] at h
    cases h
    rfl
  | cons a t ih =>
    intro db c out h
    simp only [upsertLoop] at h
    by_cases h1 : fa = some c
    · rw [if_pos h1] at h
      simp at h
    · rw [if_neg h1] at h
      by_cases h0 : (stockUpdate db a.product_id loc a.quantity).2 = 0
      · rw [if_pos h0] at h
        by_cases h2 : fa = some (c + 1)
        · rw [if_pos h2] at h
          simp at h
        · rw [if_neg h2] at h
          rw [applyUpserts_cons,
            upsertStock_of_missing db a.product_id loc a.quantity h0]
          exact ih _ _ _ h
      · rw [if_neg h0] at h
        rw [applyUpserts_cons, upsertStock_of_found db a.product_id loc a.quantity h0]
        exact ih _ _ _ h

theorem upsertLoop_none_ok (loc : String) :
    ∀ (items : List DraftRow) (db : DB) (c : Nat),
      ∃ c2, upsertLoop none loc items db c =
        Except.ok (applyUpserts loc items db, c2) := by
  intro items
  induction items with
  | nil =>
    intro db c
    exact ⟨c, rfl⟩
  | cons a t ih =>
    intro db c
    rw [applyUpserts_cons]
    simp only [upsertLoop]
    rw [if_neg (by simp)]
    by_cases h0 : (stockUpdate db a.product_id loc a.quantity).2 = 0
    · rw [if_pos h0, if_neg (by simp),
        upsertStock_of_missing db a.product_id loc a.quantity h0]
      exact ih _ _
    · rw [if_neg h0, upsertStock_of_found db a.product_id loc a.quantity h0]
      exact ih _ _

theorem commitTx_none (db : DB) (loc : String) :
    commitTx db loc none =
      Except.ok (deleteDrafts (applyUpserts loc (draftsFor db loc) db) loc,
        (draftsFor db loc).length) := by
  unfold commitTx
  rw [if_neg (by simp)]
  obtain ⟨c2, hc⟩ := upsertLoop_none_ok loc (draftsFor db loc) db 1
  rw [hc]
  dsimp only
  rw [if_neg (by simp), if_neg (by simp)]

theorem commitTx_ok (db : DB) (loc : String) (fa : Option Nat) (r : DB × Nat)
    (h : commitTx db loc fa = Except.ok r) :
    r = (deleteDrafts (applyUpserts loc (draftsFor db loc) db) loc,
         (draftsFor db loc).length) := by
  unfold commitTx at h
  by_cases h0 : fa = some 0
  · rw [if_pos h0] at h
    simp at h
  · rw [if_neg h0] at h
    cases hu : upsertLoop fa loc (draftsFor db loc) db 1 with
    | error e =>
      rw [hu] at h
      simp at h
    | ok s =>
      rw [hu] at h
      dsimp only at h
      by_cases h1 : fa = some s.2
      · rw [if_pos h1] at h
        simp at h
      · rw [if_neg h1] at h
        by_cases h2 : fa = some (s.2 + 1)
        · rw [if_pos h2] at h
          simp at h
        · rw [if_neg h2] at h
          cases h
          rw [upsertLoop_ok_state fa loc _ _ _ _ hu]

theorem commit_none_eq (db : DB) (loc : String) :
    commit db loc none =
      (Except.ok (draftsFor db loc).length,
       deleteDrafts (applyUpserts loc (draftsFor db loc) db) loc) := by
  unfold commit
  rw [commitTx_none]

theorem commit_snd_of_error (db : DB) (loc : String) (fa : Option Nat) (e : ApiErr)
    (h : (commit db loc fa).1 = Except.error e) : (commit db loc fa).2 = db := by
  unfold commit at h ⊢
  cases htx : commitTx db loc fa with
  | error u => rfl
  | ok r =>
    rw [htx] at h
    simp at h

theorem commit_snd_cases (db : DB) (loc : String) (fa : Option Nat) :
    (commit db loc fa).2 = db ∨
    (commit db loc fa).2 =
      deleteDrafts (applyUpserts loc (draftsFor db loc) db) loc := by
  unfold commit
  cases htx : commitTx db loc fa with
  | error u =>
    left
    rfl
  | ok r =>
    right
    rw [commitTx_ok db loc fa r htx]

/-! ## Effect of the upsert loop on the stock ledger -/

theorem mem_stockRowsFor (db : DB) (pid : Nat) (loc : String) (s : StockRow)
    (h : s ∈ stockRowsFor db pid loc) :
    s ∈ db.stock_levels ∧ s.product_id = pid ∧ s.location = loc := by
  unfold stockRowsFor at h
  rw [List.mem_filter] at h
  refine ⟨h.1, ?_⟩
  simpa using h.2

theorem stockRowsFor_stockUpdate (db : DB) (pid2 : Nat) (loc2 : String) (q : Int)
    (pid : Nat) (loc : String) :
    stockRowsFor (stockUpdate db pid2 loc2 q).1 pid loc =
      (stockRowsFor db pid loc).map fun s =>
        if s.product_id = pid2 ∧ s.location = loc2 then
          { s with on_hand := q, available := q } else s := by
  unfold stockRowsFor stockUpdate
  dsimp only
  apply filter_map_invar
  intro a
  by_cases hc : a.product_id = pid2 ∧ a.location = loc2
  · rw [if_pos hc]
  · rw [if_neg hc]

theorem stockRowsFor_stockInsert (db : DB) (pid2 : Nat) (loc2 : String) (q : Int)
    (pid : Nat) (loc : String) :
    stockRowsFor (stockInsert db pid2 loc2 q) pid loc =
      stockRowsFor db pid loc ++
        (if pid2 = pid ∧ loc2 = loc then
          [{ product_id := pid2, location := loc2, on_hand := q, available := q }]
        else []) := by
  unfold stockRowsFor stockInsert
  dsimp only
  rw [List.filter_append]
  congr 1
  by_cases hc : pid2 = pid ∧ loc2 = loc
  · rw [if_pos hc]
    simp [List.filter_cons, hc.1, hc.2]
  · rw [if_neg hc]
    simp only [List.filter_cons]
    rw [if_neg (by simpa using hc)]
    rfl

theorem stockRowsFor_upsert_other (db : DB) (pid2 : Nat) (loc2 : String) (q : Int)
    (pid : Nat) (loc : String) (h : ¬ (pid = pid2 ∧ loc = loc2)) :
    stockRowsFor (upsertStock db pid2 loc2 q) pid loc = stockRowsFor db pid loc := by
  have hmap : (stockRowsFor db pid loc).map (fun s =>
      if s.product_id = pid2 ∧ s.location = loc2 then
        { s with on_hand := q, available := q } else s) = stockRowsFor db pid loc := by
    have : ∀ s ∈ stockRowsFor db pid loc,
        (if s.product_id = pid2 ∧ s.location = loc2 then
          { s with on_hand := q, available := q } else s) = s := by
      intro s hs
      obtain ⟨-, hs1, hs2⟩ := mem_stockRowsFor db pid loc s hs
      rw [if_neg]
      intro hc
      exact h ⟨hs1 ▸ hc.1, hs2 ▸ hc.2⟩
    calc (stockRowsFor db pid loc).map _ = (stockRowsFor db pid loc).map id :=
          List.map_congr_left this
      _ = stockRowsFor db pid loc := List.map_id _
  by_cases h0 : (stockRowsFor db pid2 loc2).length = 0
  · rw [upsertStock_of_missing db pid2 loc2 q h0, stockRowsFor_stockInsert,
      stockRowsFor_stockUpdate, hmap, if_neg, List.append_nil]
    intro hc
    exact h ⟨hc.1.symm, hc.2.symm⟩
  · rw [upsertStock_of_found db pid2 loc2 q h0, stockRowsFor_stockUpdate, hmap]

theorem upsertStock_same (db : DB) (pid : Nat) (loc : String) (q : Int) :
    stockRowsFor (upsertStock db pid loc q) pid loc ≠ [] ∧
    ∀ s ∈ stockRowsFor (upsertStock db pid loc q) pid loc,
      s.on_hand = q ∧ s.available = q := by
  by_cases h0 : (stockRowsFor db pid loc).length = 0
  · rw [upsertStock_of_missing db pid loc q h0, stockRowsFor_stockInsert,
      stockRowsFor_stockUpdate, List.length_eq_zero.mp h0]
    rw [if_pos ⟨rfl, rfl⟩]
    constructor
    · simp
    · intro s hs
      simp only [List.map_nil, List.nil_append, List.mem_singleton] at hs
      rw [hs]
      exact ⟨rfl, rfl⟩
  · rw [upsertStock_of_found db pid loc q h0, stockRowsFor_stockUpdate]
    constructor
    · intro hnil
      rw [List.map_eq_nil_iff] at hnil
      exact h0 (by rw [hnil]; rfl)
    · intro s hs
      rw [List.mem_map] at hs
      obtain ⟨x, hx, hfx⟩ := hs
      obtain ⟨-, hx1, hx2⟩ := mem_stockRowsFor db pid loc x hx
      rw [if_pos ⟨hx1, hx2⟩] at hfx
      rw [← hfx]
      exact ⟨rfl, rfl⟩

theorem applyUpserts_other (loc : String) (pid : Nat) (loc2 : String) :
    ∀ (items : List DraftRow) (db : DB),
      (∀ it ∈ items, ¬ (pid = it.product_id ∧ loc2 = loc)) →
      stockRowsFor (applyUpserts loc items db) pid loc2 = stockRowsFor db pid loc2 := by
  intro items
  induction items with
  | nil => intro db _; rfl
  | cons a t ih =>
    intro db h
    rw [applyUpserts_cons, ih _ fun it hit => h it (List.mem_cons_of_mem a hit),
      stockRowsFor_upsert_other _ _ _ _ _ _ (h a (List.mem_cons_self a t))]

theorem applyUpserts_pair_sets (loc : String) :
    ∀ (items : List DraftRow) (db : DB),
      items.Pairwise (fun a b => a.product_id ≠ b.product_id) →
      ∀ r ∈ items,
        stockRowsFor (applyUpserts loc items db) r.product_id loc ≠ [] ∧
        ∀ s ∈ stockRowsFor (applyUpserts loc items db) r.product_id loc,
          s.on_hand = r.quantity ∧ s.available = r.quantity := by
  intro items
  induction items with
  | nil =>
    intro db _ r hr
    cases hr
  | cons a t ih =>
    intro db hpw r hr
    obtain ⟨hhead, htail⟩ := List.pairwise_cons.mp hpw
    rw [applyUpserts_cons]
    rcases List.mem_cons.mp hr with rfl | hrt
    · rw [applyUpserts_other loc r.product_id loc t _
        (fun it hit hc => hhead it hit hc.1)]
      exact upsertStock_same db r.product_id loc r.quantity
    · exact ih _ htail r hrt

/-! ## Review listing and the draft-set filters -/

theorem mem_insertDesc (r a : DraftRow) :
    ∀ l : List DraftRow, a ∈ insertDesc r l ↔ a = r ∨ a ∈ l := by
  intro l
  induction l with
  | nil => simp [insertDesc]
  | cons x xs ih =>
    unfold insertDesc
    by_cases h : r.scanned_at ≤ x.scanned_at
    · rw [if_pos h]
      simp only [List.mem_cons, ih]
      tauto
    · rw [if_neg h]
      simp only [List.mem_cons]

theorem mem_sortDesc (a : DraftRow) : ∀ l : List DraftRow, a ∈ sortDesc l ↔ a ∈ l := by
  intro l
  induction l with
  | nil => simp [sortDesc]
  | cons x xs ih =>
    unfold sortDesc
    rw [mem_insertDesc]
    simp [ih]

theorem listDrafts_eq_nil (db : DB) (loc : String) (h : draftsFor db loc = []) :
    listDrafts db loc = [] := by
  unfold listDrafts
  rw [h]
  rfl

theorem listDrafts_id_mem (db : DB) (loc : String) (v : ReviewRow)
    (h : v ∈ listDrafts db loc) : ∃ r ∈ db.inventory_counts, r.id = v.id := by
  unfold listDrafts at h
  rw [List.mem_filterMap] at h
  obtain ⟨r, hr, hv⟩ := h
  rw [mem_sortDesc] at hr
  unfold draftsFor at hr
  rw [List.mem_filter] at hr
  refine ⟨r, hr.1, ?_⟩
  cases hf : db.products.find? (fun p => decide (p.product_id = r.product_id)) with
  | none =>
    rw [hf] at hv
    cases hv
  | some p =>
    rw [hf] at hv
    cases hv
    rfl

theorem draftsFor_deleteDrafts (db : DB) (loc : String) :
    draftsFor (deleteDrafts db loc) loc = [] := by
  unfold draftsFor deleteDrafts
  dsimp only
  rw [List.filter_filter]
  rw [List.filter_eq_nil_iff]
  intro a _
  simp

theorem draftsFor_filter_pid (db : DB) (loc : String) (pid : Nat) :
    (draftsFor db loc).filter (fun r => decide (r.product_id = pid)) =
      pairDrafts db pid loc := by
  unfold draftsFor pairDrafts
  rw [List.filter_filter]
  apply List.filter_congr
  intro a _
  simp [Bool.decide_and]

theorem pairwise_key_of_filter_le_one {α : Type} (key : α → Nat) :
    ∀ l : List α,
      (∀ k, (l.filter fun a => decide (key a = k)).length ≤ 1) →
      l.Pairwise fun a b => key a ≠ key b := by
  intro l
  induction l with
  | nil =>
    intro _
    exact List.Pairwise.nil
  | cons a t ih =>
    intro h
    refine List.pairwise_cons.mpr ⟨?_, ih ?_⟩
    · intro b hb hkey
      have h1 := h (key a)
      rw [List.filter_cons, if_pos (by simp)] at h1
      simp only [List.length_cons] at h1
      have h0 : (t.filter fun x => decide (key x = key a)).length = 0 := by
        omega
      have hb2 : b ∈ t.filter fun x => decide (key x = key a) := by
        rw [List.mem_filter]
        exact ⟨hb, by simp [hkey]⟩
      rw [List.length_eq_zero] at h0
      rw [h0] at hb2
      cases hb2
    · intro k
      have h2 := h k
      rw [List.filter_cons] at h2
      by_cases hc : (decide (key a = k) : Bool) = true
      · rw [if_pos hc] at h2
        simp only [List.length_cons] at h2
        omega
      · rw [if_neg hc] at h2
        exact h2

theorem pairwise_pid_of_inv (db : DB) (loc : String) (h : DraftPairAtMostOne db) :
    (draftsFor db loc).Pairwise fun a b => a.product_id ≠ b.product_id := by
  exact pairwise_key_of_filter_le_one (fun r => r.product_id) (draftsFor db loc)
    fun k => by rw [draftsFor_filter_pid]; exact h k loc

/-! ## Preservation of the draft-store invariant -/

theorem pairDrafts_insert (db : DB) (row : DraftRow) (pid : Nat) (loc : String)
    (db2 : DB) (h2 : db2.inventory_counts = db.inventory_counts ++ [row]) :
    pairDrafts db2 pid loc =
      pairDrafts db pid loc ++
        (if row.product_id = pid ∧ row.location = loc ∧ row.status = Status.DRAFT
         then [row] else []) := by
  unfold pairDrafts
  rw [h2, List.filter_append]
  congr 1
  by_cases hc : row.product_id = pid ∧ row.location = loc ∧ row.status = Status.DRAFT
  · rw [if_pos hc]
    simp [hc]
  · rw [if_neg hc]
    simp [hc]

theorem pairDrafts_map (db : DB) (f : DraftRow → DraftRow) (pid : Nat) (loc : String)
    (db2 : DB) (h2 : db2.inventory_counts = db.inventory_counts.map f)
    (hf : ∀ r, (f r).product_id = r.product_id ∧ (f r).location = r.location ∧
      (f r).status = r.status) :
    pairDrafts db2 pid loc = (pairDrafts db pid loc).map f := by
  unfold pairDrafts
  rw [h2]
  apply filter_map_invar
  intro a
  obtain ⟨g1, g2, g3⟩ := hf a
  rw [g1, g2, g3]

theorem pairDrafts_sublist_of_filter (db : DB) (g : DraftRow → Bool) (pid : Nat)
    (loc : String) (db2 : DB) (h2 : db2.inventory_counts = db.inventory_counts.filter g) :
    (pairDrafts db2 pid loc).Sublist (pairDrafts db pid loc) := by
  unfold pairDrafts
  rw [h2]
  exact List.Sublist.filter _ (List.filter_sublist _)

theorem recordScan_inv (db : DB) (bc loc : String) (uid : Nat)
    (h : DraftPairAtMostOne db) : DraftPairAtMostOne (recordScan db bc loc uid).2 := by
  rcases hf : db.products.find? (fun p => decide (p.sku = bc)) with _ | p
  · rw [recordScan_snd_none db bc loc uid hf]
    exact h
  · rcases hd : pairDrafts db p.product_id loc with _ | ⟨r0, rest⟩
    · rw [recordScan_snd_insert db bc loc uid p hf hd]
      intro pid2 loc2
      rw [pairDrafts_insert db (newDraft db p.product_id loc uid) pid2 loc2 _ rfl,
        List.length_append]
      by_cases hc : (newDraft db p.product_id loc uid).product_id = pid2 ∧
          (newDraft db p.product_id loc uid).location = loc2 ∧
          (newDraft db p.product_id loc uid).status = Status.DRAFT
      · rw [if_pos hc]
        obtain ⟨hc1, hc2, -⟩ := hc
        have hc1b : p.product_id = pid2 := hc1
        have hc2b : loc = loc2 := hc2
        subst hc1b
        subst hc2b
        rw [hd]
        simp
      · rw [if_neg hc]
        simp only [List.length_nil, Nat.add_zero]
        exact h pid2 loc2
    · rw [recordScan_snd_inc db bc loc uid p r0 rest hf hd]
      intro pid2 loc2
      rw [pairDrafts_map db _ pid2 loc2 _ rfl ?hf2]
      case hf2 =>
        intro r
        by_cases hr : r.id = r0.id <;> simp [hr]
      rw [List.length_map]
      exact h pid2 loc2

theorem setQuantity_inv (db : DB) (rid : Nat) (q : Int)
    (h : DraftPairAtMostOne db) : DraftPairAtMostOne (setQuantity db rid q).2 := by
  by_cases hq : q ≤ 0
  · rw [setQuantity_snd_del db rid q hq]
    intro pid loc
    exact le_trans (pairDrafts_sublist_of_filter db _ pid loc _ rfl).length_le (h pid loc)
  · rw [setQuantity_snd_upd db rid q hq]
    intro pid loc
    rw [pairDrafts_map db _ pid loc _ rfl ?hf3]
    case hf3 =>
      intro r
      by_cases hr : r.id = rid <;> simp [hr]
    rw [List.length_map]
    exact h pid loc

theorem commit_inv (db : DB) (loc : String) (fa : Option Nat)
    (h : DraftPairAtMostOne db) : DraftPairAtMostOne (commit db loc fa).2 := by
  rcases commit_snd_cases db loc fa with hc | hc
  · rw [hc]
    exact h
  · rw [hc]
    intro pid2 loc2
    have heq : (deleteDrafts (applyUpserts loc (draftsFor db loc) db) loc).inventory_counts
        = db.inventory_counts.filter
            (fun r => decide (¬ (r.location = loc ∧ r.status = Status.DRAFT))) := by
      unfold deleteDrafts
      dsimp only
      rw [(applyUpserts_fields loc (draftsFor db loc) db).1]
    exact le_trans (pairDrafts_sublist_of_filter db _ pid2 loc2 _ heq).length_le
      (h pid2 loc2)

theorem reachable_draft_inv (db : DB) (h : Reachable db) : DraftPairAtMostOne db := by
  induction h with
  | init ps ls k t =>
    intro pid loc
    simp [pairDrafts]
  | scan db bc loc uid _ ih => exact recordScan_inv db bc loc uid ih
  | update db rid q _ ih => exact setQuantity_inv db rid q ih
  | commitStep db loc fa _ ih => exact commit_inv db loc fa ih

/-! ## Preservation of the stock-ledger invariants -/

theorem stockRowsFor_congr (db db2 : DB) (pid : Nat) (loc : String)
    (h : db2.stock_levels = db.stock_levels) :
    stockRowsFor db2 pid loc = stockRowsFor db pid loc := by
  unfold stockRowsFor
  rw [h]

theorem stockUpdate_mem (db : DB) (pid : Nat) (loc : String) (q : Int) (s : StockRow)
    (hs : s ∈ (stockUpdate db pid loc q).1.stock_levels) :
    s ∈ db.stock_levels ∨ (s.on_hand = q ∧ s.available = q) := by
  unfold stockUpdate at hs
  dsimp only at hs
  rw [List.mem_map] at hs
  obtain ⟨x, hx, rfl⟩ := hs
  by_cases hcx : x.product_id = pid ∧ x.location = loc
  · rw [if_pos hcx]
    right
    exact ⟨rfl, rfl⟩
  · rw [if_neg hcx]
    left
    exact hx

theorem upsertStock_mem_stock (db : DB) (pid : Nat) (loc : String) (q : Int) (s : StockRow)
    (hs : s ∈ (upsertStock db pid loc q).stock_levels) :
    s ∈ db.stock_levels ∨ (s.on_hand = q ∧ s.available = q) := by
  by_cases h0 : (stockRowsFor db pid loc).length = 0
  · rw [upsertStock_of_missing db pid loc q h0] at hs
    unfold stockInsert at hs
    dsimp only at hs
    rw [List.mem_append] at hs
    rcases hs with hs | hs
    · exact stockUpdate_mem db pid loc q s hs
    · rw [List.mem_singleton] at hs
      right
      rw [hs]
      exact ⟨rfl, rfl⟩
  · rw [upsertStock_of_found db pid loc q h0] at hs
    exact stockUpdate_mem db pid loc q s hs

theorem upsertStock_balanced (db : DB) (pid : Nat) (loc : String) (q : Int)
    (h : StockBalanced db) : StockBalanced (upsertStock db pid loc q) := by
  intro s hs
  rcases upsertStock_mem_stock db pid loc q s hs with hm | hm
  · exact h s hm
  · rw [hm.1, hm.2]

theorem upsertStock_pair_inv (db : DB) (pid : Nat) (loc : String) (q : Int)
    (h : StockPairAtMostOne db) : StockPairAtMostOne (upsertStock db pid loc q) := by
  intro pid2 loc2
  by_cases hc : pid2 = pid ∧ loc2 = loc
  · obtain ⟨rfl, rfl⟩ := hc
    by_cases h0 : (stockRowsFor db pid2 loc2).length = 0
    · rw [upsertStock_of_missing db pid2 loc2 q h0, stockRowsFor_stockInsert,
        stockRowsFor_stockUpdate, List.length_eq_zero.mp h0, if_pos ⟨rfl, rfl⟩]
      simp
    · rw [upsertStock_of_found db pid2 loc2 q h0, stockRowsFor_stockUpdate,
        List.length_map]
      exact h pid2 loc2
  · rw [stockRowsFor_upsert_other db pid loc q pid2 loc2 hc]
    exact h pid2 loc2

theorem applyUpserts_balanced (loc : String) :
    ∀ (items : List DraftRow) (db : DB),
      StockBalanced db → StockBalanced (applyUpserts loc items db) := by
  intro items
  induction items with
  | nil =>
    intro db h
    exact h
  | cons a t ih =>
    intro db h
    rw [applyUpserts_cons]
    exact ih _ (upsertStock_balanced db a.product_id loc a.quantity h)

theorem applyUpserts_pair_inv (loc : String) :
    ∀ (items : List DraftRow) (db : DB),
      StockPairAtMostOne db → StockPairAtMostOne (applyUpserts loc items db) := by
  intro items
  induction items with
  | nil =>
    intro db h
    exact h
  | cons a t ih =>
    intro db h
    rw [applyUpserts_cons]
    exact ih _ (upsertStock_pair_inv db a.product_id loc a.quantity h)

theorem commit_stock_invs (db : DB) (loc : String) (fa : Option Nat)
    (h1 : StockPairAtMostOne db) (h2 : StockBalanced db) :
    StockPairAtMostOne (commit db loc fa).2 ∧ StockBalanced (commit db loc fa).2 := by
  rcases commit_snd_cases db loc fa with hc | hc
  · rw [hc]
    exact ⟨h1, h2⟩
  · rw [hc]
    constructor
    · intro pid2 loc2
      rw [stockRowsFor_congr (applyUpserts loc (draftsFor db loc) db)
        (deleteDrafts (applyUpserts loc (draftsFor db loc) db) loc) pid2 loc2 rfl]
      exact applyUpserts_pair_inv loc (draftsFor db loc) db h1 pid2 loc2
    · intro s hs
      exact applyUpserts_balanced loc (draftsFor db loc) db h2 s hs

theorem reachable_stock_invs (db : DB) (h : Reachable db) :
    StockPairAtMostOne db ∧ StockBalanced db := by
  induction h with
  | init ps ls k t =>
    constructor
    · intro pid loc
      simp [stockRowsFor]
    · intro s hs
      cases hs
  | scan db bc loc uid _ ih =>
    have hst := (recordScan_fields db bc loc uid).2.2
    constructor
    · intro pid loc2
      rw [stockRowsFor_congr db (recordScan db bc loc uid).2 pid loc2 hst]
      exact ih.1 pid loc2
    · intro s hs
      rw [hst] at hs
      exact ih.2 s hs
  | update db rid q _ ih =>
    have hst : (setQuantity db rid q).2.stock_levels = db.stock_levels := by
      by_cases hq : q ≤ 0
      · rw [setQuantity_snd_del db rid q hq]
      · rw [setQuantity_snd_upd db rid q hq]
    constructor
    · intro pid loc2
      rw [stockRowsFor_congr db (setQuantity db rid q).2 pid loc2 hst]
      exact ih.1 pid loc2
    · intro s hs
      rw [hst] at hs
      exact ih.2 s hs
  | commitStep db loc fa _ ih => exact commit_stock_invs db loc fa ih.1 ih.2

/-! ## Repeated scanning of one (product, location) pair -/

theorem scanN_products (db : DB) (bc loc : String) (uid : Nat) :
    ∀ n, (scanN db bc loc uid n).products = db.products := by
  intro n
  induction n with
  | zero => rfl
  | succ n ih =>
    rw [scanN, (recordScan_fields _ bc loc uid).1, ih]

theorem scan_pair_inc (db : DB) (bc loc : String) (uid : Nat) (p : Product) (r : DraftRow)
    (hp : db.products.find? (fun x => decide (x.sku = bc)) = some p)
    (hd : pairDrafts db p.product_id loc = [r]) :
    pairDrafts (recordScan db bc loc uid).2 p.product_id loc =
      [{ r with quantity := r.quantity + 1 }] ∧
    (recordScan db bc loc uid).2.inventory_counts.length =
      db.inventory_counts.length := by
  rw [recordScan_snd_inc db bc loc uid p r [] hp hd]
  constructor
  · rw [pairDrafts_map db _ p.product_id loc _ rfl ?hfa]
    case hfa =>
      intro x
      by_cases hx : x.id = r.id <;> simp [hx]
    rw [hd]
    simp
  · dsimp only
    rw [List.length_map]

theorem scan_pair_new (db : DB) (bc loc : String) (uid : Nat) (p : Product)
    (hp : db.products.find? (fun x => decide (x.sku = bc)) = some p)
    (hd : pairDrafts db p.product_id loc = []) :
    pairDrafts (recordScan db bc loc uid).2 p.product_id loc =
      [newDraft db p.product_id loc uid] ∧
    (recordScan db bc loc uid).2.inventory_counts.length =
      db.inventory_counts.length + 1 := by
  rw [recordScan_snd_insert db bc loc uid p hp hd]
  constructor
  · rw [pairDrafts_insert db _ p.product_id loc _ rfl, hd,
      if_pos ⟨rfl, rfl, rfl⟩, List.nil_append]
  · dsimp only
    rw [List.length_append]
    rfl

theorem scanN_pair (db : DB) (bc loc : String) (uid : Nat) (p : Product)
    (hp : db.products.find? (fun x => decide (x.sku = bc)) = some p)
    (hd : pairDrafts db p.product_id loc = []) :
    ∀ n, 1 ≤ n → ∃ r : DraftRow,
      pairDrafts (scanN db bc loc uid n) p.product_id loc = [r] ∧
      r.quantity = (n : Int) := by
  intro n
  induction n with
  | zero =>
    intro h
    cases h
  | succ n ih =>
    intro _
    by_cases hn : 1 ≤ n
    · obtain ⟨r, hr, hq⟩ := ih hn
      have hp2 : (scanN db bc loc uid n).products.find?
          (fun x => decide (x.sku = bc)) = some p := by
        rw [scanN_products db bc loc uid n]
        exact hp
      rw [scanN]
      obtain ⟨h1, -⟩ := scan_pair_inc (scanN db bc loc uid n) bc loc uid p r hp2 hr
      refine ⟨_, h1, ?_⟩
      show r.quantity + 1 = ((n + 1 : Nat) : Int)
      rw [hq]
      push_cast
      ring
    · have hn0 : n = 0 := by omega
      subst hn0
      rw [scanN]
      obtain ⟨h1, -⟩ := scan_pair_new db bc loc uid p hp hd
      exact ⟨_, h1, rfl⟩

theorem deleteDrafts_of_empty (db : DB) (loc : String) (h : draftsFor db loc = []) :
    deleteDrafts db loc = db := by
  unfold deleteDrafts
  have h2 : db.inventory_counts.filter
      (fun r => decide (¬ (r.location = loc ∧ r.status = Status.DRAFT))) =
      db.inventory_counts := by
    apply List.filter_eq_self.mpr
    intro a ha
    unfold draftsFor at h
    rw [List.filter_eq_nil_iff] at h
    have h3 := h a ha
    simp only [decide_eq_true_eq] at h3 ⊢
    exact h3
  rw [h2]

/-! ## Concrete states used by the witnesses -/

/-- A one-product catalog used by the concrete witnesses. -/
def sampleProduct : Product := { product_id := 1, name := "Widget", sku := "A1" }

/-- Empty draft store and stock ledger. -/
def dbEmpty : DB :=
  { products := [sampleProduct], locations := ["Dock"], inventory_counts := [],
    stock_levels := [], nextId := 10, now := 0 }

/-- A reviewed draft row: 7 units of product 1 counted at Dock. -/
def rowOne : DraftRow :=
  { id := 10, product_id := 1, location := "Dock", quantity := 7, user_id := 5,
    scanned_at := 0, status := Status.DRAFT }

/-- One draft row present. -/
def dbOne : DB := { dbEmpty with inventory_counts := [rowOne] }

/-- One draft row present and a pre-existing stock level of 10. -/
def dbStocked : DB :=
  { dbOne with stock_levels :=
      [{ product_id := 1, location := "Dock", on_hand := 10, available := 10 }] }

/-! ## The claims -/

/-- C1: a successful `commit(L)` promotes the full draft set for `L`:
afterwards `listDrafts(L)` returns an empty sequence, every
(product_id, L) pair that had a `DRAFT` row has a stock-ledger row with
`on_hand = available` equal to that draft's quantity, and the handler
returns the number of draft rows promoted.  Stated under the §3 draft
invariant (at most one `DRAFT` row per pair), which every reachable state
satisfies. -/
theorem C1_commit_promotes (db : DB) (loc : String) (h : DraftPairAtMostOne db) :
    (commit db loc none).1 = Except.ok (draftsFor db loc).length ∧
    listDrafts (commit db loc none).2 loc = [] ∧
    ∀ r ∈ draftsFor db loc,
      ∃ s ∈ (commit db loc none).2.stock_levels,
        s.product_id = r.product_id ∧ s.location = loc ∧
        s.on_hand = r.quantity ∧ s.available = r.quantity := by
  rw [commit_none_eq]
  refine ⟨rfl, ?_, ?_⟩
  · exact listDrafts_eq_nil _ loc (draftsFor_deleteDrafts _ loc)
  · intro r hr
    have hpw := pairwise_pid_of_inv db loc h
    obtain ⟨hne, hall⟩ :=
      applyUpserts_pair_sets loc (draftsFor db loc) db hpw r hr
    rcases hx : stockRowsFor (applyUpserts loc (draftsFor db loc) db)
        r.product_id loc with _ | ⟨s, rest⟩
    · exact absurd hx hne
    · have hsmem : s ∈ stockRowsFor (applyUpserts loc (draftsFor db loc) db)
          r.product_id loc := by
        rw [hx]
        exact List.mem_cons_self s rest
      obtain ⟨hs_lvl, hs_pid, hs_loc⟩ := mem_stockRowsFor _ _ _ s hsmem
      obtain ⟨hon, hav⟩ := hall s hsmem
      exact ⟨s, hs_lvl, hs_pid, hs_loc, hon, hav⟩

theorem C1_commit_promotes_witness :
    (commit dbOne "Dock" none).1 = Except.ok 1 ∧
    listDrafts (commit dbOne "Dock" none).2 "Dock" = [] := by
  have h := C1_commit_promotes dbOne "Dock" fun pid loc => List.length_filter_le _ _
  refine ⟨?_, h.2.1⟩
  rw [h.1]
  rfl

/-- C2: commit is all-or-nothing.  Whatever statement of the commit
transaction an injected fault hits, the handler either answers success or
answers `StorageFailure` with the database exactly as it was before the
commit: no stock-ledger row changed and no draft row deleted. -/
theorem C2_commit_all_or_nothing (db : DB) (loc : String) (fa : Option Nat) :
    (∃ n, (commit db loc fa).1 = Except.ok n) ∨
    ((commit db loc fa).1 = Except.error ApiErr.StorageFailure ∧
      (commit db loc fa).2 = db) := by
  unfold commit
  cases htx : commitTx db loc fa with
  | error u =>
    right
    exact ⟨rfl, rfl⟩
  | ok r =>
    left
    exact ⟨r.2, rfl⟩

/-- C3: scanning merges into the existing `DRAFT` row of the
(product, location) pair — incrementing its quantity by exactly 1 without
creating a row — and creates exactly one fresh row with quantity 1 when no
row exists; hence `n` sequential scans of the same pair starting from no
draft leave exactly one `DRAFT` row, with quantity `n`. -/
theorem C3_scan_merge (db : DB) (bc loc : String) (uid : Nat) (p : Product)
    (hp : db.products.find? (fun x => decide (x.sku = bc)) = some p) :
    (∀ r : DraftRow, pairDrafts db p.product_id loc = [r] →
      pairDrafts (recordScan db bc loc uid).2 p.product_id loc =
        [{ r with quantity := r.quantity + 1 }] ∧
      (recordScan db bc loc uid).2.inventory_counts.length =
        db.inventory_counts.length) ∧
    (pairDrafts db p.product_id loc = [] →
      pairDrafts (recordScan db bc loc uid).2 p.product_id loc =
        [newDraft db p.product_id loc uid] ∧
      (recordScan db bc loc uid).2.inventory_counts.length =
        db.inventory_counts.length + 1) ∧
    (pairDrafts db p.product_id loc = [] → ∀ n, 1 ≤ n →
      ∃ r : DraftRow, pairDrafts (scanN db bc loc uid n) p.product_id loc = [r] ∧
        r.quantity = (n : Int)) :=
  ⟨fun r hr => scan_pair_inc db bc loc uid p r hp hr,
   fun hd => scan_pair_new db bc loc uid p hp hd,
   fun hd n hn => scanN_pair db bc loc uid p hp hd n hn⟩

theorem C3_scan_merge_witness :
    ∃ r : DraftRow,
      pairDrafts (scanN dbEmpty "A1" "Dock" 5 3) sampleProduct.product_id "Dock" =
        [r] ∧ r.quantity = (3 : Int) :=
  (C3_scan_merge dbEmpty "A1" "Dock" 5 sampleProduct rfl).2.2 rfl 3 (by decide)

/-- C4: in every state reachable by any sequence of scan, update and
commit operations from an empty draft store, at most one `DRAFT` row
exists per (product_id, location) pair. -/
theorem C4_draft_pair_unique (db : DB) (h : Reachable db) : DraftPairAtMostOne db :=
  reachable_draft_inv db h

theorem C4_draft_pair_unique_witness :
    DraftPairAtMostOne (recordScan (recordScan dbEmpty "A1" "Dock" 5).2
      "A1" "Dock" 5).2 :=
  C4_draft_pair_unique _
    (Reachable.scan _ "A1" "Dock" 5
      (Reachable.scan _ "A1" "Dock" 5
        (Reachable.init [sampleProduct] ["Dock"] 10 0)))

/-- C5 counterexample: the update handler answers success for an id that
references no draft row; it does not fail with `NotFound`.  This refutes
the claim that `setDraftQuantity` fails with `NotFound` whenever the id
does not reference an existing draft row. -/
theorem C5_counterexample :
    (∀ r ∈ dbEmpty.inventory_counts, r.id ≠ 99) ∧
    (setQuantity dbEmpty 99 5).1 = Except.ok () ∧
    (setQuantity dbEmpty 99 5).1 ≠ Except.error ApiErr.NotFound := by
  refine ⟨?_, rfl, ?_⟩
  · intro r hr
    simp [dbEmpty] at hr
  · intro hcon
    rw [setQuantity_fst] at hcon
    simp at hcon

/-- C5 amended: `setQuantity` never fails — the handler answers
`{ success: true }` unconditionally, whether or not the id references an
existing draft row; when no row carries the id, the database is left
completely unchanged. -/
theorem C5_amended_update_total (db : DB) (rid : Nat) (q : Int)
    (h : ∀ r ∈ db.inventory_counts, r.id ≠ rid) :
    (setQuantity db rid q).1 = Except.ok () ∧ (setQuantity db rid q).2 = db := by
  refine ⟨setQuantity_fst db rid q, ?_⟩
  by_cases hq : q ≤ 0
  · rw [setQuantity_snd_del db rid q hq]
    have h2 : db.inventory_counts.filter (fun r => decide (¬ r.id = rid)) =
        db.inventory_counts := by
      apply List.filter_eq_self.mpr
      intro a ha
      simp [h a ha]
    rw [h2]
  · rw [setQuantity_snd_upd db rid q hq]
    have h2 : db.inventory_counts.map
        (fun r => if r.id = rid then { r with quantity := q } else r) =
        db.inventory_counts := by
      have hid : ∀ a ∈ db.inventory_counts,
          (if a.id = rid then { a with quantity := q } else a) = a := by
        intro a ha
        rw [if_neg (h a ha)]
      calc db.inventory_counts.map _ = db.inventory_counts.map id :=
            List.map_congr_left hid
        _ = db.inventory_counts := List.map_id _
    rw [h2]

theorem C5_amended_update_total_witness :
    (setQuantity dbEmpty 99 5).1 = Except.ok () ∧
    (setQuantity dbEmpty 99 5).2 = dbEmpty :=
  C5_amended_update_total dbEmpty 99 5 fun r hr => by simp [dbEmpty] at hr

/-- C6: for an existing draft row id, `setQuantity(id, q)` with `q ≤ 0`
deletes the row — no row with that id remains and the review listing of
its location no longer returns it — and with `q > 0` overwrites the row's
quantity to exactly `q` in place, leaving the row count unchanged. -/
theorem C6_set_quantity (db : DB) (rid : Nat) (q : Int) (r : DraftRow)
    (hr : r ∈ db.inventory_counts) (hid : r.id = rid) :
    (q ≤ 0 →
      (∀ x ∈ (setQuantity db rid q).2.inventory_counts, x.id ≠ rid) ∧
      (∀ v ∈ listDrafts (setQuantity db rid q).2 r.location, v.id ≠ rid)) ∧
    (0 < q →
      { r with quantity := q } ∈ (setQuantity db rid q).2.inventory_counts ∧
      (setQuantity db rid q).2.inventory_counts.length =
        db.inventory_counts.length) := by
  constructor
  · intro hq
    have hall : ∀ x ∈ (setQuantity db rid q).2.inventory_counts, x.id ≠ rid := by
      rw [setQuantity_snd_del db rid q hq]
      dsimp only
      intro x hx
      rw [List.mem_filter] at hx
      have := hx.2
      simpa using this
    refine ⟨hall, ?_⟩
    intro v hv hvid
    obtain ⟨x, hx, hxid⟩ := listDrafts_id_mem _ _ v hv
    exact hall x hx (hxid.trans hvid)
  · intro hq
    have hupd := setQuantity_snd_upd db rid q (by omega)
    constructor
    · rw [hupd]
      dsimp only
      have heq : { r with quantity := q } =
          (fun x : DraftRow => if x.id = rid then { x with quantity := q } else x) r := by
        dsimp only
        rw [if_pos hid]
      rw [heq]
      exact List.mem_map_of_mem _ hr
    · rw [hupd]
      dsimp only
      rw [List.length_map]

theorem C6_set_quantity_witness :
    ((∀ x ∈ (setQuantity dbOne 10 0).2.inventory_counts, x.id ≠ 10) ∧
      (∀ v ∈ listDrafts (setQuantity dbOne 10 0).2 rowOne.location, v.id ≠ 10)) ∧
    ({ rowOne with quantity := 3 } ∈ (setQuantity dbOne 10 3).2.inventory_counts ∧
      (setQuantity dbOne 10 3).2.inventory_counts.length =
        dbOne.inventory_counts.length) :=
  ⟨(C6_set_quantity dbOne 10 0 rowOne (List.mem_cons_self rowOne []) rfl).1
      (by decide),
   (C6_set_quantity dbOne 10 3 rowOne (List.mem_cons_self rowOne []) rfl).2
      (by decide)⟩

/-- C7: the commit-time upsert is an absolute overwrite, not additive.
When a stock-ledger row exists for the (product_id, location) pair, the
upsert keeps the row count and sets `on_hand = available = q` on the
pair's rows regardless of their prior values; when none exists it appends
exactly one new row with both fields equal to `q`. -/
theorem C7_upsert_overwrite (db : DB) (pid : Nat) (loc : String) (q : Int) :
    (stockRowsFor db pid loc ≠ [] →
      (upsertStock db pid loc q).stock_levels.length = db.stock_levels.length ∧
      stockRowsFor (upsertStock db pid loc q) pid loc ≠ [] ∧
      ∀ s ∈ stockRowsFor (upsertStock db pid loc q) pid loc,
        s.on_hand = q ∧ s.available = q) ∧
    (stockRowsFor db pid loc = [] →
      (upsertStock db pid loc q).stock_levels =
        db.stock_levels ++
          [{ product_id := pid, location := loc, on_hand := q, available := q }]) := by
  constructor
  · intro hne
    have h0 : ¬ (stockRowsFor db pid loc).length = 0 := fun hz =>
      hne (List.length_eq_zero.mp hz)
    refine ⟨?_, (upsertStock_same db pid loc q).1, (upsertStock_same db pid loc q).2⟩
    rw [upsertStock_of_found db pid loc q h0]
    unfold stockUpdate
    dsimp only
    rw [List.length_map]
  · intro hnil
    have h0 : (stockRowsFor db pid loc).length = 0 := by
      rw [hnil]
      rfl
    rw [upsertStock_of_missing db pid loc q h0]
    unfold stockInsert stockUpdate
    dsimp only
    congr 1
    have hid : ∀ a ∈ db.stock_levels,
        (if a.product_id = pid ∧ a.location = loc then
          { a with on_hand := q, available := q } else a) = a := by
      intro a ha
      rw [if_neg]
      intro hc
      have hmem : a ∈ stockRowsFor db pid loc := by
        unfold stockRowsFor
        rw [List.mem_filter]
        exact ⟨ha, by simp [hc.1, hc.2]⟩
      rw [hnil] at hmem
      cases hmem
    calc db.stock_levels.map _ = db.stock_levels.map id :=
          List.map_congr_left hid
      _ = db.stock_levels := List.map_id _

theorem C7_upsert_overwrite_witness :
    (upsertStock dbStocked 1 "Dock" 5).stock_levels.length =
      dbStocked.stock_levels.length ∧
    ∀ s ∈ stockRowsFor (upsertStock dbStocked 1 "Dock" 5) 1 "Dock",
      s.on_hand = 5 ∧ s.available = 5 := by
  have h := (C7_upsert_overwrite dbStocked 1 "Dock" 5).1 (by decide)
  exact ⟨h.1, h.2.2⟩

/-- C8: commit is idempotent under retry-after-rollback.  When a commit
fails (so the handler rolled the transaction back), re-invoking commit on
the resulting state gives exactly the outcome — answer and final database,
stock ledger included — of a single successful commit on the original
state. -/
theorem C8_commit_retry (db : DB) (loc : String) (fa : Option Nat) (e : ApiErr)
    (h : (commit db loc fa).1 = Except.error e) :
    commit (commit db loc fa).2 loc none = commit db loc none := by
  rw [commit_snd_of_error db loc fa e h]

theorem C8_commit_retry_witness :
    (commit dbOne "Dock" (some 0)).1 = Except.error ApiErr.StorageFailure ∧
    commit (commit dbOne "Dock" (some 0)).2 "Dock" none = commit dbOne "Dock" none :=
  ⟨rfl, C8_commit_retry dbOne "Dock" (some 0) ApiErr.StorageFailure rfl⟩

/-- C9: in every reachable state the stock ledger holds at most one row
per (product_id, location) pair, and every ledger row written by the core
has `on_hand = available` — commit updates the pair's row when present and
inserts only when absent, never duplicating a pair. -/
theorem C9_stock_ledger_invariant (db : DB) (h : Reachable db) :
    StockPairAtMostOne db ∧ StockBalanced db :=
  reachable_stock_invs db h

theorem C9_stock_ledger_invariant_witness :
    StockPairAtMostOne
      (commit (recordScan dbEmpty "A1" "Dock" 5).2 "Dock" none).2 ∧
    StockBalanced (commit (recordScan dbEmpty "A1" "Dock" 5).2 "Dock" none).2 :=
  C9_stock_ledger_invariant _
    (Reachable.commitStep _ "Dock" none
      (Reachable.scan _ "A1" "Dock" 5
        (Reachable.init [sampleProduct] ["Dock"] 10 0)))

/-- C10: committing a location with no `DRAFT` rows — including a location
name absent from the `locations` directory, which the commit handler never
consults — succeeds with a promoted count of 0 and leaves the database
(draft store and stock ledger) completely unchanged. -/
theorem C10_commit_empty_location (db : DB) (loc : String)
    (h : draftsFor db loc = []) :
    commit db loc none = (Except.ok 0, db) := by
  rw [commit_none_eq, h, applyUpserts_nil, deleteDrafts_of_empty db loc h]
  rfl

theorem C10_commit_empty_location_witness :
    "Nowhere" ∉ dbOne.locations ∧
    commit dbOne "Nowhere" none = (Except.ok 0, dbOne) :=
  ⟨by decide, C10_commit_empty_location dbOne "Nowhere" (by decide)⟩

end Inventory
